import Mathlib

/-!
Verification of the `ipfilter` package (`iplist.go`) of kingour/goproxy-1.

The Go code is shallowly embedded:
* a Go `net.IP` / `net.IPMask` (a byte slice) is a `List Nat` whose elements
  are bytes; the empty list stands for the `nil` slice (the Go code never
  produces a non-nil empty IP or mask);
* a Go `map` keyed by `byte` / `uint16` whose values are slices is a total
  function `Nat → List _`; a missing key yields `[]`, which is observationally
  identical to the Go `value, ok` lookup because scanning an empty bucket
  returns `false` exactly as skipping an absent bucket does;
* machine bytes are `Nat`s kept below 256 by the parsers; bitwise AND is
  `Nat.land`, byte shifts are taken modulo 256 where Go overflow matters;
* Go functions of the standard `net` package that `iplist.go` calls
  (`ParseIP`, `ParseCIDR`, `IPNet.Contains`, `IPMask.Size`, `SplitHostPort`,
  `strings` helpers, `bufio.Reader.ReadString`) are embedded from their
  (version-stable for the inputs in question) reference implementations;
* a Go runtime panic (index out of range, nil-pointer dereference) is an
  explicit `crash`/`none` outcome.
-/

/-- The 12-byte IPv4-in-IPv6 marker `0,...,0,0xff,0xff` used by the Go net
package for 16-byte representations of IPv4 addresses. -/
def v4InV6 : List Nat := [0, 0, 0, 0, 0, 0, 0, 0, 0, 0, 255, 255]

/-- Embeds Go `isZeros`: every byte of the slice is zero. -/
def isZeros (l : List Nat) : Bool := l.all (fun b => b == 0)

/-- Embeds Go `allFF`: every byte of the slice is 0xff. -/
def allFF (l : List Nat) : Bool := l.all (fun b => b == 255)

/-- Embeds Go `net.IP.To4`: a 4-byte address is returned unchanged, a 16-byte
IPv4-mapped address is reduced to its last 4 bytes, anything else gives the
nil slice `[]`. -/
def To4 (ip : List Nat) : List Nat :=
  if ip.length = 4 then ip
  else if ip.length = 16 ∧ isZeros (ip.take 10) = true ∧
      ip.getD 10 0 = 255 ∧ ip.getD 11 0 = 255 then ip.drop 12
  else []

/-- The recurring Go idiom `if x := ip.To4(); x != nil { ip = x }`. -/
def normIP (ip : List Nat) : List Nat := if To4 ip ≠ [] then To4 ip else ip

/-- Embeds Go `net.IP.Mask` (bytewise AND after the two slice-length
adjustments; mismatched lengths give the nil slice). -/
def ipMask (ip mask : List Nat) : List Nat :=
  let mask := if mask.length = 16 ∧ ip.length = 4 ∧ allFF (mask.take 12) = true
    then mask.drop 12 else mask
  let ip := if mask.length = 4 ∧ ip.length = 16 ∧ ip.take 12 = v4InV6
    then ip.drop 12 else ip
  if ip.length ≠ mask.length then []
  else (List.zip ip mask).map (fun p => Nat.land p.1 p.2)

/-- A Go `*net.IPNet`: base address and mask, each a byte slice. -/
structure IPNet where
  ip : List Nat
  mask : List Nat
deriving DecidableEq, Repr

/-- Embeds Go `networkNumberAndMask`: normalizes the network base to 4 bytes
when possible and aligns the mask length with it; invalid combinations give
the pair of nil slices. -/
def networkNumberAndMask (n : IPNet) : List Nat × List Nat :=
  if To4 n.ip = [] ∧ n.ip.length ≠ 16 then ([], [])
  else
    let nn := if To4 n.ip ≠ [] then To4 n.ip else n.ip
    if n.mask.length = 4 then (if nn.length ≠ 4 then ([], []) else (nn, n.mask))
    else if n.mask.length = 16 then
      (if nn.length = 4 then (nn, n.mask.drop 12) else (nn, n.mask))
    else ([], [])

/-- Embeds Go `(*net.IPNet).Contains`: normalize the query address, compare
lengths, then compare all bytes under the mask.  The Go index loop is the
`all` over the zipped byte lists (the reachable cases always have
`len(nn) = len(m)`, so zipping loses nothing). -/
def IPNet.Contains (n : IPNet) (ip : List Nat) : Bool :=
  let nm := networkNumberAndMask n
  let q := normIP ip
  if q.length ≠ nm.1.length then false
  else (List.zip (List.zip nm.1 nm.2) q).all
    (fun p => Nat.land p.1.1 p.1.2 == Nat.land p.2 p.1.2)

/-- One pass of the byte-shift loop of Go `simpleMaskLength`
(`for v&0x80 != 0 { n++; v <<= 1 }`): returns the count of leading one bits
taken and the final shifted byte value (shifts are modulo 256).  Eight steps
of fuel always suffice for a byte. -/
def leadOnes : Nat → Nat → Nat × Nat
  | 0, v => (0, v)
  | fuel + 1, v =>
    if Nat.land v 128 ≠ 0 then
      let r := leadOnes fuel (v * 2 % 256)
      (r.1 + 1, r.2)
    else (0, v)

/-- Embeds Go `simpleMaskLength`: the prefix length of a contiguous mask, or
`none` (Go `-1`) for a non-contiguous mask. -/
def simpleMaskLength : List Nat → Option Nat
  | [] => some 0
  | v :: rest =>
    if v = 255 then (simpleMaskLength rest).map (· + 8)
    else
      let r := leadOnes 8 v
      if r.2 ≠ 0 then none
      else if rest.all (fun b => b == 0) then some r.1
      else none

/-- Embeds Go `net.IPMask.Size`: `(ones, bits)`, or `(0, 0)` for a
non-contiguous mask. -/
def maskSize (m : List Nat) : Nat × Nat :=
  match simpleMaskLength m with
  | none => (0, 0)
  | some ones => (ones, 8 * m.length)

/-- The byte loop of Go `net.CIDRMask`. -/
def cidrMaskAux : Nat → Nat → List Nat
  | 0, _ => []
  | l + 1, n =>
    if 8 ≤ n then 255 :: cidrMaskAux l (n - 8)
    else (255 - 255 / 2 ^ n) :: cidrMaskAux l 0

/-- Embeds Go `net.CIDRMask` (the `^byte(0xff >> n)` byte is
`255 - 255 / 2^n`). -/
def CIDRMask (ones bits : Nat) : List Nat :=
  if (bits = 32 ∨ bits = 128) ∧ ones ≤ bits then cidrMaskAux (bits / 8) ones
  else []

/-- Embeds Go `dtoi` (decimal prefix of a string, with the `0xFFFFFF`
overflow cutoff): returns `(value, charsConsumed, ok)`. -/
def dtoiLoop : List Char → Nat → Nat → Nat × Nat × Bool
  | [], n, i => if i = 0 then (0, 0, false) else (n, i, true)
  | c :: cs, n, i =>
    if '0' ≤ c ∧ c ≤ '9' then
      let n' := n * 10 + (c.toNat - '0'.toNat)
      if 0xFFFFFF ≤ n' then (0xFFFFFF, i, false)
      else dtoiLoop cs n' (i + 1)
    else if i = 0 then (0, 0, false) else (n, i, true)

/-- Go `dtoi`, entry point. -/
def dtoi (s : List Char) : Nat × Nat × Bool := dtoiLoop s 0 0

/-- Embeds Go `xtoi` (hexadecimal prefix of a string): returns
`(value, charsConsumed, ok)`; overflow returns value 0. -/
def xtoiLoop : List Char → Nat → Nat → Nat × Nat × Bool
  | [], n, i => if i = 0 then (0, 0, false) else (n, i, true)
  | c :: cs, n, i =>
    if '0' ≤ c ∧ c ≤ '9' then
      let n' := n * 16 + (c.toNat - '0'.toNat)
      if 0xFFFFFF ≤ n' then (0, i, false) else xtoiLoop cs n' (i + 1)
    else if 'a' ≤ c ∧ c ≤ 'f' then
      let n' := n * 16 + (c.toNat - 'a'.toNat) + 10
      if 0xFFFFFF ≤ n' then (0, i, false) else xtoiLoop cs n' (i + 1)
    else if 'A' ≤ c ∧ c ≤ 'F' then
      let n' := n * 16 + (c.toNat - 'A'.toNat) + 10
      if 0xFFFFFF ≤ n' then (0, i, false) else xtoiLoop cs n' (i + 1)
    else if i = 0 then (0, 0, false) else (n, i, true)

/-- Go `xtoi`, entry point. -/
def xtoi (s : List Char) : Nat × Nat × Bool := xtoiLoop s 0 0

/-- The four-field loop of Go `parseIPv4`: `fields` fields remain, `first`
marks the first field (no leading dot); returns the parsed bytes and the
remaining characters, or `none` on failure.  Leading zeros are accepted, as
in the Go toolchains of this repository's era. -/
def parseIPv4Fields : Nat → Bool → List Char → Option (List Nat × List Char)
  | 0, _, s => some ([], s)
  | fields + 1, first, s =>
    if s = [] then none
    else
      let s' : Option (List Char) :=
        if first then some s
        else match s with
          | '.' :: rest => some rest
          | _ => none
      match s' with
      | none => none
      | some s2 =>
        let r := dtoi s2
        if r.2.2 = false ∨ 255 < r.1 then none
        else match parseIPv4Fields fields false (s2.drop r.2.1) with
          | none => none
          | some (bs, rem) => some (r.1 :: bs, rem)

/-- Embeds Go `parseIPv4`: a dotted-decimal IPv4 address, returned in the
16-byte IPv4-in-IPv6 representation produced by the Go `IPv4()` helper;
`[]` is the nil result. -/
def parseIPv4 (s : List Char) : List Nat :=
  match parseIPv4Fields 4 true s with
  | some (bs, []) => v4InV6 ++ bs
  | _ => []

/-- One iteration of the group loop of Go `parseIPv6`, carrying the bytes
written so far, the ellipsis byte position (if a `::` was seen) and the
remaining characters.  Returns the loop's exit state or `none` for a parse
failure.  Every recursive call appends exactly two bytes and the loop stops
at 16 bytes, so fuel 8 makes the fuel case unreachable. -/
def parseIPv6Loop : Nat → List Nat → Option Nat → List Char →
    Option (List Nat × Option Nat × List Char)
  | 0, bytes, ell, s => some (bytes, ell, s)
  | fuel + 1, bytes, ell, s =>
    if 16 ≤ bytes.length then some (bytes, ell, s)
    else
      let r := xtoi s
      if r.2.2 = false ∨ 0xFFFF < r.1 then none
      else if r.2.1 < s.length ∧ s.getD r.2.1 ' ' = '.' then
        if ell = none ∧ bytes.length ≠ 12 then none
        else if 16 < bytes.length + 4 then none
        else
          let ip4 := parseIPv4 s
          if ip4 = [] then none
          else some (bytes ++ ip4.drop 12, ell, [])
      else
        let bytes := bytes ++ [r.1 / 256, r.1 % 256]
        let s := s.drop r.2.1
        if s = [] then some (bytes, ell, s)
        else if s.headD ' ' ≠ ':' ∨ s.length = 1 then none
        else
          let s := s.drop 1
          if s.headD ' ' = ':' then
            if ell ≠ none then none
            else
              let ell := some bytes.length
              let s := s.drop 1
              if s = [] then some (bytes, ell, s)
              else parseIPv6Loop fuel bytes ell s
          else parseIPv6Loop fuel bytes ell s

/-- Embeds Go `parseIPv6` (zone-less form): `[]` is the nil result.  The
final ellipsis expansion reproduces the Go in-place shift over the
zero-initialized 16-byte array. -/
def parseIPv6 (s : List Char) : List Nat :=
  let hasEll := 2 ≤ s.length ∧ s.getD 0 ' ' = ':' ∧ s.getD 1 ' ' = ':'
  if hasEll ∧ s.length = 2 then List.replicate 16 0
  else
    let ell : Option Nat := if hasEll then some 0 else none
    let s' := if hasEll then s.drop 2 else s
    match parseIPv6Loop 8 [] ell s' with
    | none => []
    | some (bytes, ellOut, rem) =>
      if rem ≠ [] then []
      else if bytes.length < 16 then
        match ellOut with
        | none => []
        | some k => bytes.take k ++ List.replicate (16 - bytes.length) 0 ++ bytes.drop k
      else
        match ellOut with
        | none => bytes
        | some _ => []

/-- The dispatch scan of Go `net.ParseIP`: the first `.` selects the IPv4
parser, the first `:` the IPv6 parser, both applied to the whole string. -/
def parseIPScan (orig : List Char) : List Char → List Nat
  | [] => []
  | c :: cs =>
    if c = '.' then parseIPv4 orig
    else if c = ':' then parseIPv6 orig
    else parseIPScan orig cs

/-- Embeds Go `net.ParseIP`; `[]` is the nil result. -/
def ParseIP (s : List Char) : List Nat := parseIPScan s s

/-- First index of a character (Go `byteIndex`). -/
def goIndex (s : List Char) (c : Char) : Option Nat :=
  match s with
  | [] => none
  | a :: as =>
    if a = c then some 0
    else (goIndex as c).map (· + 1)

/-- Last index of a character (Go `last`). -/
def goLast (s : List Char) (c : Char) : Option Nat :=
  match s with
  | [] => none
  | a :: as =>
    match goLast as c with
    | some j => some (j + 1)
    | none => if a = c then some 0 else none

/-- Embeds Go `net.ParseCIDR`: split at the first `/`, parse the address
(IPv4 first, IPv6 as fallback), parse the prefix length, build the mask and
the masked network.  Returns `(ip, ipnet)` or `none` (the Go error). -/
def ParseCIDR (s : List Char) : Option (List Nat × IPNet) :=
  match goIndex s '/' with
  | none => none
  | some i =>
    let addr := s.take i
    let maskStr := s.drop (i + 1)
    let p4 := parseIPv4 addr
    let ipAndLen : List Nat × Nat :=
      if p4 ≠ [] then (p4, 4) else (parseIPv6 addr, 16)
    let r := dtoi maskStr
    if ipAndLen.1 = [] ∨ r.2.2 = false ∨ r.2.1 ≠ maskStr.length ∨
        8 * ipAndLen.2 < r.1 then none
    else
      let m := CIDRMask r.1 (8 * ipAndLen.2)
      some (ipAndLen.1, ⟨ipMask ipAndLen.1 m, m⟩)

/-- Embeds Go `strings.Split(line, " ")` (single-character separator; the
empty string yields `[""]`). -/
def goSplit : List Char → List (List Char)
  | [] => [[]]
  | c :: cs =>
    if c = ' ' then [] :: goSplit cs
    else
      match goSplit cs with
      | t :: rest => (c :: t) :: rest
      | [] => [[c]]

/-- Result of `ParseLine`.  The Go function returns `(*net.IPNet, error)`;
`crash` is the runtime panic raised by `addrs[1]` when the line has no
space.  (As the theorems show, the `err` case is in fact unreachable.) -/
inductive PLResult where
  | ok (n : IPNet)
  | err
  | crash
deriving DecidableEq, Repr

/-- Whether a `ParseLine` outcome is the error return. -/
def PLResult.isErr : PLResult → Bool
  | .err => true
  | _ => false

/-- Embeds `ParseLine` of iplist.go: try CIDR notation first; otherwise
split on a space, parse both tokens as IP addresses (normalizing each to 4
bytes when possible) and build the `IPNet` from them.  Accessing `addrs[1]`
panics when the split produced a single token. -/
def ParseLine (line : List Char) : PLResult :=
  match ParseCIDR line with
  | some (_, n) => .ok n
  | none =>
    let addrs := goSplit line
    let ip := ParseIP (addrs.getD 0 [])
    let ip := if To4 ip ≠ [] then To4 ip else ip
    match addrs.get? 1 with
    | none => .crash
    | some a1 =>
      let mask := ParseIP a1
      let mask := if To4 mask ≠ [] then To4 mask else mask
      .ok ⟨ip, mask⟩

/-- Embeds Go `strings.Trim(line, "\r\n ")`: both ends stripped of carriage
returns, newlines and spaces. -/
def isTrimmed (c : Char) : Bool := c = '\r' ∨ c = '\n' ∨ c = ' '

/-- The trim applied to each line by `ReadIPList`. -/
def trimLine (l : List Char) : List Char :=
  ((l.dropWhile isTrimmed).reverse.dropWhile isTrimmed).reverse

/-- Embeds `bufio.Reader.ReadString('\n')` over a pure stream: returns the
line (up to and including the delimiter), the remaining stream, and whether
the read ended by EOF instead of the delimiter. -/
def readString : List Char → List Char × List Char × Bool
  | [] => ([], [], true)
  | c :: cs =>
    if c = '\n' then ([c], cs, false)
    else
      let r := readString cs
      (c :: r.1, r.2.1, r.2.2)

/-- The `IPFilter` structure of iplist.go.  The Go maps `idx1`/`idx2` are
total functions from the key to the bucket list (missing key = `[]`). -/
structure IPFilter where
  rest : List IPNet
  idx1 : Nat → List IPNet
  idx2 : Nat → List IPNet

/-- The freshly allocated filter of `ReadIPList` (empty maps, nil rest). -/
def emptyFilter : IPFilter := ⟨[], fun _ => [], fun _ => []⟩

/-- Embeds `ListConatins` of iplist.go (the linear scan; the Go early
return is `List.any`). -/
def ListConatins (iplist : List IPNet) (ip : List Nat) : Bool :=
  iplist.any (fun n => n.Contains ip)

/-- Embeds `IPFilter.Contain`: normalize to 4 bytes when possible, then
check the word bucket of the first two bytes, the byte bucket of the first
byte, and the unindexed rest, in that order.  (`binary.BigEndian.Uint16`
of the first two bytes is `256*b0 + b1`; Go would panic on an address
shorter than 2 bytes, which the theorems exclude by well-formedness.) -/
def IPFilter.Contain (f : IPFilter) (ip0 : List Nat) : Bool :=
  let ip := normIP ip0
  let p2 := 256 * ip.getD 0 0 + ip.getD 1 0
  ListConatins (f.idx2 p2) ip ||
    (ListConatins (f.idx1 (ip.getD 0 0)) ip || ListConatins f.rest ip)

/-- The classification step of the `ReadIPList` loop: append the parsed
range to the bucket selected by its mask's prefix length.  `none` is the
index-out-of-range panic of `ipnet.IP[0]` / `ipnet.IP[:2]` on a base
address that is too short. -/
def insertRange (f : IPFilter) (n : IPNet) : Option IPFilter :=
  let ones := (maskSize n.mask).1
  if ones < 8 then some { f with rest := f.rest ++ [n] }
  else if ones < 16 then
    match n.ip.get? 0 with
    | none => none
    | some b =>
      some { f with idx1 := fun k => if k = b then f.idx1 k ++ [n] else f.idx1 k }
  else
    match n.ip.get? 0, n.ip.get? 1 with
    | some b0, some b1 =>
      some { f with idx2 := fun k => if k = 256 * b0 + b1 then f.idx2 k ++ [n] else f.idx2 k }
    | _, _ => none

/-- Outcome of `ReadIPList`: the Go multi-return `(filter, err)` is `ok`
(`(filter, nil)`) or `fail` (`(nil, err)`); `crash` is a runtime panic
escaping the function. -/
inductive LoadResult where
  | ok (f : IPFilter)
  | fail
  | crash

/-- The built filter of a successful load. -/
def LoadResult.getFilter : LoadResult → Option IPFilter
  | .ok f => some f
  | _ => none

/-- Whether the load crashed. -/
def LoadResult.isCrash : LoadResult → Bool
  | .crash => true
  | _ => false

/-- Whether the load succeeded. -/
def LoadResult.isOk : LoadResult → Bool
  | .ok _ => true
  | _ => false

/-- The loop of `ReadIPList` over a pure stream.  Each iteration reads one
line; an empty line at EOF (`readString` on the empty stream) breaks the
loop cleanly, otherwise the trimmed line is parsed and inserted.  Fuel:
every iteration consumes at least one character, so `stream.length + 1`
steps always reach the EOF break, making the fuel case unreachable. -/
def readIPListLoop : Nat → List Char → IPFilter → LoadResult
  | 0, _, _ => .crash
  | fuel + 1, s, f =>
    match s with
    | [] => .ok f
    | c :: cs =>
      let r := readString (c :: cs)
      match ParseLine (trimLine r.1) with
      | .err => .fail
      | .crash => .crash
      | .ok ipnet =>
        match insertRange f ipnet with
        | none => .crash
        | some f' => readIPListLoop fuel r.2.1 f'

/-- Embeds `ReadIPList` of iplist.go over a pure stream of characters. -/
def readIPList (s : List Char) : LoadResult :=
  readIPListLoop (s.length + 1) s emptyFilter

/-- The sequence of ranges parsed from a stream, line by line (`none` as
soon as a line does not parse cleanly): the unpartitioned range set that
`ReadIPList` distributes over its buckets. -/
def parseStreamLoop : Nat → List Char → Option (List IPNet)
  | 0, _ => none
  | fuel + 1, s =>
    match s with
    | [] => some []
    | c :: cs =>
      let r := readString (c :: cs)
      match ParseLine (trimLine r.1) with
      | .ok n => (parseStreamLoop fuel r.2.1).map (n :: ·)
      | _ => none

/-- The parsed ranges of a stream. -/
def parseStream (s : List Char) : Option (List IPNet) :=
  parseStreamLoop (s.length + 1) s

/-- Folding `insertRange` over a range list (the insertion part of the
`ReadIPList` loop, separated from the line reading). -/
def foldInsert : IPFilter → List IPNet → Option IPFilter
  | f, [] => some f
  | f, r :: rs =>
    match insertRange f r with
    | none => none
    | some f' => foldInsert f' rs

/-- A DNS resolver collaborator: `lookupIP hostname` returns the address
slice (with `none` as the Go nil slice, distinguished from an empty
non-nil slice `some []`) and whether an error was returned. -/
structure Resolver where
  lookupIP : List Char → Option (List (List Nat)) × Bool

/-- Embeds `Getaddrs` of iplist.go: a hostname that parses as a literal IP
is the single candidate (built by `append` on a nil slice, hence non-nil);
otherwise the resolver's slice is returned as-is, its error only logged. -/
def Getaddrs (resolver : Resolver) (hostname : List Char) : Option (List (List Nat)) :=
  if ParseIP hostname ≠ [] then some [ParseIP hostname]
  else (resolver.lookupIP hostname).1

/-- Embeds Go `net.SplitHostPort`: `some (host, port)` or `none` for any of
its error returns (missing port, too many colons, bracket errors). -/
def SplitHostPort (hostPort : List Char) : Option (List Char × List Char) :=
  match goLast hostPort ':' with
  | none => none
  | some i =>
    if hostPort.headD ' ' = '[' then
      match goIndex hostPort ']' with
      | none => none
      | some endi =>
        if endi + 1 = hostPort.length then none
        else if endi + 1 = i then
          if (hostPort.drop 1).any (fun c => c = '[') then none
          else if (hostPort.drop (endi + 1)).any (fun c => c = ']') then none
          else some ((hostPort.take endi).drop 1, hostPort.drop (i + 1))
        else none
    else
      let host := hostPort.take i
      if host.any (fun c => c = ':') then none
      else if hostPort.any (fun c => c = '[') then none
      else if hostPort.any (fun c => c = ']') then none
      else some (host, hostPort.drop (i + 1))

/-- The `FilterPair` of iplist.go: a dialer (identified by a token) and the
`*IPFilter` pointer, which is nil (`none`) when `LoadFilter` failed. -/
structure FilterPair where
  dialer : Nat
  filter : Option IPFilter

/-- The `FilteredDialer` of iplist.go: default dialer, resolver, ordered
filter pairs. -/
structure FilteredDialer where
  dialer : Nat
  resolver : Resolver
  fps : List FilterPair

/-- The nested loop of `Dial` over the filter pairs and candidate
addresses: `some (some fp)` is the first pair whose filter contains a
candidate, `none` means no pair matched, and `some none` is the nil-pointer
panic of `fp.filter.Contain` on a pair whose load had failed. -/
def firstMatch : List FilterPair → List (List Nat) → Option (Option FilterPair)
  | [], _ => none
  | fp :: rest, addrs =>
    match fp.filter with
    | none => if addrs.isEmpty then firstMatch rest addrs else some none
    | some flt =>
      if addrs.any (fun a => flt.Contain a) then some (some fp)
      else firstMatch rest addrs

/-- The observable decision of one `Dial` call: which dialer is invoked
with which arguments, or which error is returned without any dial, or a
panic. -/
inductive DialAction where
  | call (dialer : Nat) (network address : List Char)
  | errSplit
  | errDNSNotFound
  | crash
deriving DecidableEq, Repr

/-- Embeds `FilteredDialer.Dial` of iplist.go as its decision: pass-through
when no pairs are registered; split the address (its error is fatal);
resolve; nil candidate slice is the `ErrDNSNotFound` return; otherwise the
first matching pair's dialer — or the default dialer — receives the dial. -/
def FilteredDialer.dialAction (fd : FilteredDialer) (network address : List Char) :
    DialAction :=
  if fd.fps.length = 0 then .call fd.dialer network address
  else
    match SplitHostPort address with
    | none => .errSplit
    | some (hostname, _) =>
      match Getaddrs fd.resolver hostname with
      | none => .errDNSNotFound
      | some addrs =>
        match firstMatch fd.fps addrs with
        | some (some fp) => .call fp.dialer network address
        | some none => .crash
        | none => .call fd.dialer network address

/-- The errors a `Dial` call can return. -/
inductive DialErr where
  | dnsNotFound
  | split
  | dialer (e : Nat)
deriving DecidableEq, Repr

/-- The behaviour of the underlying dialers: for a dialer token and the
`(network, address)` arguments, the connection (a token) or error the
dialer returns. -/
def DialBehavior : Type := Nat → List Char → List Char → Except Nat Nat

/-- Mapping a delegated dialer's return through `Dial` (passed through
unchanged). -/
def delegate : Except Nat Nat → Option (Except DialErr Nat)
  | .ok c => some (.ok c)
  | .error e => some (.error (.dialer e))

/-- `Dial`'s full result, given the behaviour of the underlying dialers
(`none` is a panic). -/
def FilteredDialer.runDial (fd : FilteredDialer) (beh : DialBehavior)
    (network address : List Char) : Option (Except DialErr Nat) :=
  match fd.dialAction network address with
  | .call d n a => delegate (beh d n a)
  | .errSplit => some (.error .split)
  | .errDNSNotFound => some (.error .dnsNotFound)
  | .crash => none

/-- Embeds `ReadIPListFile`: the filesystem and gzip layer are abstracted
into the argument — `none` when opening/decompressing fails (the Go
`(nil, err)` return), `some stream` for the bytes the reader yields.
Result: `some (filter, err)` for a normal return, `none` for a panic. -/
def readIPListFile (file : Option (List Char)) : Option (Option IPFilter × Bool) :=
  match file with
  | none => some (none, true)
  | some s =>
    match readIPList s with
    | .ok f => some (some f, false)
    | .fail => some (none, true)
    | .crash => none

/-- Embeds `FilteredDialer.LoadFilter`: build the pair, load the file, and
append the pair to `fps` unconditionally — also when the load failed, in
which case the appended pair's filter pointer is nil. -/
def FilteredDialer.LoadFilter (fd : FilteredDialer) (dialer : Nat)
    (file : Option (List Char)) : Option (FilteredDialer × Bool) :=
  (readIPListFile file).map
    (fun r => ({ fd with fps := fd.fps ++ [⟨dialer, r.1⟩] }, r.2))

/-- Prefix length of a parsed range, as the classification in `ReadIPList`
computes it: the `ones` component of the Go `Mask.Size()`. -/
def onesOf (r : IPNet) : Nat := (maskSize r.mask).1

/-- Membership test for the coarse bucket class. -/
def inCoarseB (r : IPNet) : Bool := decide (onesOf r < 8)

/-- Membership test for the byte bucket of key `k`. -/
def inByteB (k : Nat) (r : IPNet) : Bool :=
  decide (8 ≤ onesOf r ∧ onesOf r < 16 ∧ r.ip.getD 0 0 = k)

/-- Membership test for the word bucket of key `k`. -/
def inWordB (k : Nat) (r : IPNet) : Bool :=
  decide (16 ≤ onesOf r ∧ 256 * r.ip.getD 0 0 + r.ip.getD 1 0 = k)

/-- The matching test of one filter pair against a candidate list (the
inner loop of `Dial` for one pair); false for a nil filter pointer (the
theorems that use it assume loaded pairs, where `Dial` cannot panic). -/
def pairMatches (fp : FilterPair) (addrs : List (List Nat)) : Bool :=
  match fp.filter with
  | some flt => addrs.any (fun a => flt.Contain a)
  | none => false

/-- `Contain` on the filter built from a stream (`none` when the load does
not return a filter). -/
def loadContain (s : List Char) (ip : List Nat) : Option Bool :=
  match readIPList s with
  | .ok f => some (f.Contain ip)
  | _ => none

/-- The range accepted by `ParseLine`, as data. -/
def parsedNet (l : List Char) : Option IPNet :=
  match ParseLine l with
  | .ok n => some n
  | _ => none

/-- Stream of the partition-transparency counterexample: a single range
whose CIDR line writes the address in IPv4-mapped IPv6 form. -/
def c1CexStream : List Char := String.toList "::ffff:10.20.0.0/112\n"

/-- A small stream of dotted-decimal ranges (one CIDR, one two-token). -/
def c1Stream : List Char := String.toList "10.0.0.0/8\n1.2.3.0 255.255.255.0\n"

/-- The filter built from `c1Stream`. -/
def c1Filter : IPFilter := (readIPList c1Stream).getFilter.getD emptyFilter

/-- The parsed ranges of `c1Stream`. -/
def c1Ranges : List IPNet := (parseStream c1Stream).getD []

/-- A stream with one range per bucket class. -/
def c6Stream : List Char := String.toList "1.0.0.0/4\n2.128.0.0/9\n3.4.5.0/24\n"

/-- The filter built from `c6Stream`. -/
def c6Filter : IPFilter := (readIPList c6Stream).getFilter.getD emptyFilter

/-- The parsed ranges of `c6Stream`. -/
def c6Ranges : List IPNet := (parseStream c6Stream).getD []

/-- A loaded filter for the range `10.0.0.0/8`. -/
def flt10 : IPFilter :=
  (readIPList (String.toList "10.0.0.0/8\n")).getFilter.getD emptyFilter

/-- A resolver whose lookup returns the nil slice with an error. -/
def resNil : Resolver := ⟨fun _ => (none, true)⟩

/-- A resolver whose lookup returns an empty but non-nil slice, no error. -/
def resEmpty : Resolver := ⟨fun _ => (some [], false)⟩

/-- A routing dialer with no filter pairs. -/
def fdPass : FilteredDialer := ⟨0, resNil, []⟩

/-- A routing dialer with two filter pairs for the same range. -/
def fdTwo : FilteredDialer := ⟨0, resNil, [⟨5, some flt10⟩, ⟨6, some flt10⟩]⟩

/-- A routing dialer whose resolver yields an empty non-nil slice. -/
def fdEmptyRes : FilteredDialer := ⟨0, resEmpty, [⟨5, some flt10⟩]⟩

/-- A routing dialer whose resolver yields the nil slice. -/
def fdNilRes : FilteredDialer := ⟨0, resNil, [⟨5, some flt10⟩]⟩

/-- A dialer behaviour that connects and reports the dialer's own token. -/
def behConn : DialBehavior := fun d _ _ => .ok d

lemma To4_of_length4 {ip : List Nat} (h : ip.length = 4) : To4 ip = ip := by
  simp [To4, h]

lemma length4_ne_nil {ip : List Nat} (h : ip.length = 4) : ip ≠ [] := by
  intro e; subst e; simp at h

lemma To4_length {ip : List Nat} (h : To4 ip ≠ []) : (To4 ip).length = 4 := by
  by_cases h4 : ip.length = 4
  · rw [To4_of_length4 h4]; exact h4
  · by_cases h16 : ip.length = 16 ∧ isZeros (ip.take 10) = true ∧
        ip.getD 10 0 = 255 ∧ ip.getD 11 0 = 255
    · have hd : To4 ip = ip.drop 12 := by unfold To4; rw [if_neg h4, if_pos h16]
      rw [hd, List.length_drop, h16.1]
    · exfalso; apply h; unfold To4; rw [if_neg h4, if_neg h16]

lemma To4_subset {ip : List Nat} : ∀ b ∈ To4 ip, b ∈ ip := by
  intro b hb
  unfold To4 at hb
  split at hb
  · exact hb
  · split at hb
    · exact List.drop_subset 12 ip hb
    · simp at hb

lemma normIP_length4 {ip : List Nat} (h : ip.length = 4) : normIP ip = ip := by
  simp [normIP, To4_of_length4 h, length4_ne_nil h]

lemma normIP_idem (ip : List Nat) : normIP (normIP ip) = normIP ip := by
  by_cases h : To4 ip = []
  · simp [normIP, h]
  · have h1 : normIP ip = To4 ip := by simp [normIP, h]
    rw [h1, normIP_length4 (To4_length h)]

lemma normIP_subset {ip : List Nat} : ∀ b ∈ normIP ip, b ∈ ip := by
  intro b hb
  unfold normIP at hb
  split at hb
  · exact To4_subset b hb
  · exact hb

lemma Contains_normIP (n : IPNet) (ip : List Nat) :
    n.Contains ip = n.Contains (normIP ip) := by
  simp only [IPNet.Contains, normIP_idem]

set_option maxRecDepth 20000 in
lemma land255 : ∀ b < 256, Nat.land b 255 = b := by decide

set_option maxRecDepth 20000 in
lemma leadOnes_lt8 : ∀ v < 256, v ≠ 255 → (leadOnes 8 v).2 = 0 → (leadOnes 8 v).1 < 8 := by
  decide

lemma list_len4 {l : List Nat} (h : l.length = 4) : ∃ a b c d, l = [a, b, c, d] := by
  cases l with
  | nil => simp at h
  | cons a t0 =>
    cases t0 with
    | nil => simp at h
    | cons b t1 =>
      cases t1 with
      | nil => simp at h
      | cons c t2 =>
        cases t2 with
        | nil => simp at h
        | cons d t3 =>
          cases t3 with
          | nil => exact ⟨a, b, c, d, rfl⟩
          | cons e t4 => simp only [List.length_cons] at h; omega

lemma sml_cons_255 {rest : List Nat} :
    simpleMaskLength (255 :: rest) = (simpleMaskLength rest).map (· + 8) := by
  simp [simpleMaskLength]

lemma sml_ge8 {v : Nat} {rest : List Nat} {n : Nat} (hv : v < 256)
    (h : simpleMaskLength (v :: rest) = some n) (hn : 8 ≤ n) :
    v = 255 ∧ simpleMaskLength rest = some (n - 8) := by
  by_cases hev : v = 255
  · subst hev
    rw [sml_cons_255] at h
    refine ⟨rfl, ?_⟩
    cases hr : simpleMaskLength rest with
    | none => rw [hr] at h; exact Option.noConfusion h
    | some m =>
      rw [hr] at h
      simp only [Option.map_some'] at h
      have hmn : m + 8 = n := by injection h
      have hm : m = n - 8 := by omega
      rw [hm]
  · exfalso
    simp only [simpleMaskLength, if_neg hev] at h
    split at h
    · exact Option.noConfusion h
    · next h2 =>
      split at h
      · have hz : (leadOnes 8 v).2 = 0 := by omega
        have hlt := leadOnes_lt8 v hv hev hz
        have hval : (leadOnes 8 v).1 = n := by injection h
        omega
      · exact Option.noConfusion h

lemma contains_44 {a0 a1 a2 a3 m0 m1 m2 m3 q0 q1 q2 q3 : Nat} :
    IPNet.Contains ⟨[a0, a1, a2, a3], [m0, m1, m2, m3]⟩ [q0, q1, q2, q3] =
      ((Nat.land a0 m0 == Nat.land q0 m0) && ((Nat.land a1 m1 == Nat.land q1 m1) &&
       ((Nat.land a2 m2 == Nat.land q2 m2) && (Nat.land a3 m3 == Nat.land q3 m3)))) := by
  simp [IPNet.Contains, networkNumberAndMask, normIP, To4, List.zip]

lemma contains_4_len {a0 a1 a2 a3 m0 m1 m2 m3 : Nat} {q : List Nat}
    (hq : normIP q = q) (hlen : q.length ≠ 4) :
    IPNet.Contains ⟨[a0, a1, a2, a3], [m0, m1, m2, m3]⟩ q = false := by
  have hnm : networkNumberAndMask ⟨[a0, a1, a2, a3], [m0, m1, m2, m3]⟩ =
      ([a0, a1, a2, a3], [m0, m1, m2, m3]) := by
    simp [networkNumberAndMask, To4]
  simp only [IPNet.Contains, hnm, hq]
  simp [hlen]

lemma contains_keys {r : IPNet} {q : List Nat}
    (hip : r.ip.length = 4) (hm : r.mask.length = 4)
    (hbi : ∀ b ∈ r.ip, b < 256) (hbm : ∀ b ∈ r.mask, b < 256)
    (hbq : ∀ b ∈ q, b < 256) (hq : normIP q = q)
    (hc : r.Contains q = true) :
    (8 ≤ onesOf r → q.getD 0 0 = r.ip.getD 0 0) ∧
    (16 ≤ onesOf r → q.getD 1 0 = r.ip.getD 1 0) := by
  obtain ⟨rip, rmask⟩ := r
  simp only at hip hm hbi hbm hc ⊢
  obtain ⟨a0, a1, a2, a3, rfl⟩ := list_len4 hip
  obtain ⟨m0, m1, m2, m3, rfl⟩ := list_len4 hm
  have hql : q.length = 4 := by
    by_contra hne
    rw [contains_4_len hq hne] at hc
    exact Bool.noConfusion hc
  obtain ⟨q0, q1, q2, q3, rfl⟩ := list_len4 hql
  rw [contains_44] at hc
  simp only [Bool.and_eq_true, beq_iff_eq] at hc
  obtain ⟨hc0, hc1, -, -⟩ := hc
  cases hsml : simpleMaskLength [m0, m1, m2, m3] with
  | none =>
    have hz : onesOf ⟨[a0, a1, a2, a3], [m0, m1, m2, m3]⟩ = 0 := by
      simp [onesOf, maskSize, hsml]
    constructor <;> (intro hcon; omega)
  | some n =>
    have hon : onesOf ⟨[a0, a1, a2, a3], [m0, m1, m2, m3]⟩ = n := by
      simp [onesOf, maskSize, hsml]
    constructor
    · intro h8
      have hn8 : 8 ≤ n := by omega
      have hm0 := (sml_ge8 (hbm m0 (by simp)) hsml hn8).1
      subst hm0
      rw [land255 a0 (hbi a0 (by simp)), land255 q0 (hbq q0 (by simp))] at hc0
      simp [hc0]
    · intro h16
      have hn16 : 16 ≤ n := by omega
      obtain ⟨hm0, hrest⟩ := sml_ge8 (hbm m0 (by simp)) hsml (by omega)
      have hm1 := (sml_ge8 (hbm m1 (by simp)) hrest (by omega)).1
      subst hm0 hm1
      rw [land255 a1 (hbi a1 (by simp)), land255 q1 (hbq q1 (by simp))] at hc1
      simp [hc1]

lemma onesOf_def (r : IPNet) : onesOf r = (maskSize r.mask).1 := rfl

lemma insertRange_coarse {f : IPFilter} {r : IPNet} (h : onesOf r < 8) :
    insertRange f r = some { f with rest := f.rest ++ [r] } := by
  rw [onesOf_def] at h
  simp [insertRange, h]

lemma insertRange_byte {f : IPFilter} {r : IPNet} {b : Nat}
    (h8 : 8 ≤ onesOf r) (h16 : onesOf r < 16) (hb : r.ip.get? 0 = some b) :
    insertRange f r = some { f with
      idx1 := fun k => if k = b then f.idx1 k ++ [r] else f.idx1 k } := by
  rw [onesOf_def] at h8 h16
  rw [List.get?_eq_getElem?] at hb
  simp [insertRange, Nat.not_lt.mpr h8, h16, hb]

lemma insertRange_word {f : IPFilter} {r : IPNet} {b0 b1 : Nat}
    (h16 : 16 ≤ onesOf r) (hb0 : r.ip.get? 0 = some b0) (hb1 : r.ip.get? 1 = some b1) :
    insertRange f r = some { f with
      idx2 := fun k => if k = 256 * b0 + b1 then f.idx2 k ++ [r] else f.idx2 k } := by
  rw [onesOf_def] at h16
  rw [List.get?_eq_getElem?] at hb0 hb1
  simp [insertRange, Nat.not_lt.mpr (show 8 ≤ (maskSize r.mask).1 by omega),
    Nat.not_lt.mpr h16, hb0, hb1]

lemma getD_of_get? {l : List Nat} {i b : Nat} (h : l.get? i = some b) : l.getD i 0 = b := by
  rw [List.getD_eq_getElem?_getD, ← List.get?_eq_getElem?, h]
  rfl

lemma foldInsert_buckets {rs : List IPNet} : ∀ {f g : IPFilter},
    foldInsert f rs = some g →
    g.rest = f.rest ++ rs.filter inCoarseB ∧
    (∀ k, g.idx1 k = f.idx1 k ++ rs.filter (inByteB k)) ∧
    (∀ k, g.idx2 k = f.idx2 k ++ rs.filter (inWordB k)) := by
  induction rs with
  | nil =>
    intro f g h
    simp only [foldInsert, Option.some.injEq] at h
    subst h
    simp
  | cons r rs ih =>
    intro f g h
    simp only [foldInsert] at h
    cases hins : insertRange f r with
    | none => rw [hins] at h; simp at h
    | some f' =>
      rw [hins] at h
      simp only at h
      obtain ⟨ihr, ih1, ih2⟩ := ih h
      rcases Nat.lt_or_ge (onesOf r) 8 with h8 | h8
      · rw [insertRange_coarse h8] at hins
        have hf' : f' = { f with rest := f.rest ++ [r] } :=
          (Option.some.injEq _ _ ▸ hins).symm
        subst hf'
        refine ⟨?_, ?_, ?_⟩
        · rw [ihr]
          simp [List.filter_cons, inCoarseB, h8, List.append_assoc]
        · intro k
          rw [ih1 k]
          have hnot : inByteB k r = false := by
            simp only [inByteB, decide_eq_false_iff_not]
            rintro ⟨hx, -, -⟩
            omega
          simp [List.filter_cons, hnot]
        · intro k
          rw [ih2 k]
          have hnot : inWordB k r = false := by
            simp only [inWordB, decide_eq_false_iff_not]
            rintro ⟨hx, -⟩
            omega
          simp [List.filter_cons, hnot]
      · rcases Nat.lt_or_ge (onesOf r) 16 with h16 | h16
        · cases hb : r.ip.get? 0 with
          | none =>
            exfalso
            rw [onesOf_def] at h8 h16
            rw [List.get?_eq_getElem?] at hb
            rw [insertRange] at hins
            simp [Nat.not_lt.mpr h8, h16, hb] at hins
          | some b =>
            rw [insertRange_byte h8 h16 hb] at hins
            have hf' : f' = { f with
                idx1 := fun k => if k = b then f.idx1 k ++ [r] else f.idx1 k } :=
              (Option.some.injEq _ _ ▸ hins).symm
            subst hf'
            have hgd : r.ip.getD 0 0 = b := getD_of_get? hb
            refine ⟨?_, ?_, ?_⟩
            · rw [ihr]
              have hnot : inCoarseB r = false := by
                simp only [inCoarseB, decide_eq_false_iff_not]
                omega
              simp [List.filter_cons, hnot]
            · intro k
              rw [ih1 k]
              by_cases hk : k = b
              · subst hk
                have hkeep : inByteB k r = true := by
                  simp only [inByteB, decide_eq_true_eq]
                  exact ⟨h8, h16, hgd⟩
                simp [List.filter_cons, hkeep, List.append_assoc]
              · have hnot : inByteB k r = false := by
                  simp only [inByteB, decide_eq_false_iff_not]
                  rintro ⟨-, -, hx⟩
                  rw [hgd] at hx
                  exact hk hx.symm
                simp [List.filter_cons, hnot, hk]
            · intro k
              rw [ih2 k]
              have hnot : inWordB k r = false := by
                simp only [inWordB, decide_eq_false_iff_not]
                rintro ⟨hx, -⟩
                omega
              simp [List.filter_cons, hnot]
        · cases hb0 : r.ip.get? 0 with
          | none =>
            exfalso
            rw [onesOf_def] at h8 h16
            rw [List.get?_eq_getElem?] at hb0
            rw [insertRange] at hins
            simp [Nat.not_lt.mpr h8, Nat.not_lt.mpr h16, hb0] at hins
          | some b0 =>
            cases hb1 : r.ip.get? 1 with
            | none =>
              exfalso
              rw [onesOf_def] at h8 h16
              rw [List.get?_eq_getElem?] at hb0 hb1
              rw [insertRange] at hins
              simp [Nat.not_lt.mpr h8, Nat.not_lt.mpr h16, hb0, hb1] at hins
            | some b1 =>
              rw [insertRange_word h16 hb0 hb1] at hins
              have hf' : f' = { f with
                  idx2 := fun k => if k = 256 * b0 + b1 then f.idx2 k ++ [r]
                    else f.idx2 k } :=
                (Option.some.injEq _ _ ▸ hins).symm
              subst hf'
              have hgd0 : r.ip.getD 0 0 = b0 := getD_of_get? hb0
              have hgd1 : r.ip.getD 1 0 = b1 := getD_of_get? hb1
              refine ⟨?_, ?_, ?_⟩
              · rw [ihr]
                have hnot : inCoarseB r = false := by
                  simp only [inCoarseB, decide_eq_false_iff_not]
                  omega
                simp [List.filter_cons, hnot]
              · intro k
                rw [ih1 k]
                have hnot : inByteB k r = false := by
                  simp only [inByteB, decide_eq_false_iff_not]
                  rintro ⟨-, hx, -⟩
                  omega
                simp [List.filter_cons, hnot]
              · intro k
                rw [ih2 k]
                by_cases hk : k = 256 * b0 + b1
                · subst hk
                  have hkeep : inWordB (256 * b0 + b1) r = true := by
                    simp only [inWordB, decide_eq_true_eq]
                    exact ⟨h16, by rw [hgd0, hgd1]⟩
                  simp [List.filter_cons, hkeep, List.append_assoc]
                · have hnot : inWordB k r = false := by
                    simp only [inWordB, decide_eq_false_iff_not]
                    rintro ⟨-, hx⟩
                    rw [hgd0, hgd1] at hx
                    exact hk hx.symm
                  simp [List.filter_cons, hnot, hk]

lemma readString_rest_le : ∀ s : List Char, (readString s).2.1.length ≤ s.length := by
  intro s
  induction s with
  | nil => simp [readString]
  | cons c cs ih =>
    simp only [readString]
    by_cases hc : c = '\n'
    · simp [hc]
    · simp only [if_neg hc]
      exact Nat.le_succ_of_le ih

lemma readIPListLoop_decomp : ∀ (fuel : Nat) (s : List Char) (f g : IPFilter),
    s.length < fuel →
    readIPListLoop fuel s f = .ok g →
    ∃ rs, parseStreamLoop fuel s = some rs ∧ foldInsert f rs = some g := by
  intro fuel
  induction fuel with
  | zero => intro s f g h; omega
  | succ n ih =>
    intro s f g hlen hok
    cases s with
    | nil =>
      refine ⟨[], by simp [parseStreamLoop], ?_⟩
      simp only [readIPListLoop] at hok
      have : f = g := by injection hok
      simp [foldInsert, this]
    | cons c cs =>
      simp only [readIPListLoop] at hok
      cases hpl : ParseLine (trimLine (readString (c :: cs)).1) with
      | err => rw [hpl] at hok; simp at hok
      | crash => rw [hpl] at hok; simp at hok
      | ok ipnet =>
        rw [hpl] at hok
        simp only at hok
        cases hins : insertRange f ipnet with
        | none => rw [hins] at hok; simp at hok
        | some f' =>
          rw [hins] at hok
          simp only at hok
          have hr : (readString (c :: cs)).2.1.length < n := by
            have h1 := readString_rest_le (c :: cs)
            have h2 : (readString (c :: cs)).2.1.length ≤ cs.length + 1 := h1
            -- need strict: rest is at most cs
            have h3 : (readString (c :: cs)).2.1.length ≤ cs.length := by
              simp only [readString]
              by_cases hc : c = '\n'
              · simp [hc]
              · simp only [if_neg hc]
                exact readString_rest_le cs
            simp only [List.length_cons] at hlen
            omega
          obtain ⟨rs, hp, hfold⟩ := ih _ f' g hr hok
          refine ⟨ipnet :: rs, ?_, ?_⟩
          · simp only [parseStreamLoop, hpl, hp, Option.map_some']
          · simp only [foldInsert, hins, hfold]

lemma any_three (l : List IPNet) (m : IPNet → Bool) :
    l.any m = ((l.filter (fun r => decide (onesOf r < 8))).any m ||
      ((l.filter (fun r => decide (8 ≤ onesOf r ∧ onesOf r < 16))).any m ||
       (l.filter (fun r => decide (16 ≤ onesOf r))).any m)) := by
  induction l with
  | nil => simp
  | cons r rs ih =>
    rcases Nat.lt_or_ge (onesOf r) 8 with h8 | h8
    · have c1 : decide (onesOf r < 8) = true := by simp [h8]
      have c2 : decide (8 ≤ onesOf r ∧ onesOf r < 16) = false := by simp; omega
      have c3 : decide (16 ≤ onesOf r) = false := by simp; omega
      simp only [List.any_cons, List.filter_cons, c1, c2, c3, if_pos, if_neg,
        Bool.false_eq_true, ite_true, ite_false, ih]
      cases m r <;> simp
    · rcases Nat.lt_or_ge (onesOf r) 16 with h16 | h16
      · have c1 : decide (onesOf r < 8) = false := by simp; omega
        have c2 : decide (8 ≤ onesOf r ∧ onesOf r < 16) = true := by
          simp only [decide_eq_true_eq]; exact ⟨h8, h16⟩
        have c3 : decide (16 ≤ onesOf r) = false := by simp; omega
        simp only [List.any_cons, List.filter_cons, c1, c2, c3,
          Bool.false_eq_true, ite_true, ite_false, ih]
        cases m r <;> simp
      · have c1 : decide (onesOf r < 8) = false := by simp; omega
        have c2 : decide (8 ≤ onesOf r ∧ onesOf r < 16) = false := by simp; omega
        have c3 : decide (16 ≤ onesOf r) = true := by simp [h16]
        simp only [List.any_cons, List.filter_cons, c1, c2, c3,
          Bool.false_eq_true, ite_true, ite_false, ih]
        cases m r <;> simp

lemma any_filter_iff (l : List IPNet) (p p' m : IPNet → Bool)
    (himp : ∀ r ∈ l, p' r = true → p r = true)
    (hrev : ∀ r ∈ l, p r = true → m r = true → p' r = true) :
    (l.filter p').any m = (l.filter p).any m := by
  induction l with
  | nil => rfl
  | cons r rs ih =>
    have ih' := ih (fun x hx => himp x (List.mem_cons_of_mem _ hx))
      (fun x hx => hrev x (List.mem_cons_of_mem _ hx))
    cases hp' : p' r with
    | true =>
      have hp : p r = true := himp r (List.mem_cons_self _ _) hp'
      simp [List.filter_cons, hp', hp, ih']
    | false =>
      cases hp : p r with
      | false => simp [List.filter_cons, hp', hp, ih']
      | true =>
        have hm : m r = false := by
          cases hmr : m r with
          | false => rfl
          | true =>
            have := hrev r (List.mem_cons_self _ _) hp hmr
            rw [this] at hp'
            exact Bool.noConfusion hp'
        simp [List.filter_cons, hp', hp, hm, ih']

/-- C1 (amended): partition transparency restricted to IPv4 range sets.  For
every Range Index built by `ReadIPList` from a stream whose parsed ranges all
have a 4-byte base address and a 4-byte mask (every range written in
dotted-decimal form, CIDR or two-token), and for every IP address, `Contain`
returns true exactly when a linear scan of the whole unpartitioned range set
finds a range containing that address.  (As stated over all parsed ranges the
claim is false: see the counterexample, a range whose CIDR line is written in
IPv4-mapped IPv6 form is word-bucketed under its raw leading bytes but
contains 4-byte addresses with a different word key.) -/
theorem contain_agrees_with_linear_scan
    (s : List Char) (f : IPFilter) (rs : List IPNet)
    (hf : readIPList s = .ok f) (hp : parseStream s = some rs)
    (h4 : ∀ r ∈ rs, r.ip.length = 4 ∧ r.mask.length = 4 ∧
      (∀ b ∈ r.ip, b < 256) ∧ (∀ b ∈ r.mask, b < 256))
    (ip : List Nat) (_hip : ip.length = 4 ∨ ip.length = 16)
    (hb : ∀ b ∈ ip, b < 256) :
    f.Contain ip = ListConatins rs ip := by
  obtain ⟨rs', hp', hfold⟩ :=
    readIPListLoop_decomp (s.length + 1) s emptyFilter f (by omega) hf
  have hrs : rs = rs' := by
    rw [parseStream] at hp
    rw [hp'] at hp
    injection hp with h
    exact h.symm
  subst hrs
  obtain ⟨hrest, hidx1, hidx2⟩ := foldInsert_buckets hfold
  have hqq : normIP (normIP ip) = normIP ip := normIP_idem ip
  have hbq : ∀ b ∈ normIP ip, b < 256 := fun b hb' => hb b (normIP_subset b hb')
  have hContain : f.Contain ip =
      (ListConatins (f.idx2 (256 * (normIP ip).getD 0 0 + (normIP ip).getD 1 0))
        (normIP ip) ||
       (ListConatins (f.idx1 ((normIP ip).getD 0 0)) (normIP ip) ||
        ListConatins f.rest (normIP ip))) := rfl
  rw [hContain, hrest, hidx1, hidx2]
  simp only [emptyFilter, List.nil_append, ListConatins]
  have hRHS : (rs.any fun n => n.Contains ip) =
      rs.any (fun n => n.Contains (normIP ip)) := by
    congr 1
    funext n
    exact Contains_normIP n ip
  rw [hRHS, any_three rs (fun n => n.Contains (normIP ip))]
  have hbyte : (rs.filter (inByteB ((normIP ip).getD 0 0))).any
        (fun n => n.Contains (normIP ip)) =
      (rs.filter (fun r => decide (8 ≤ onesOf r ∧ onesOf r < 16))).any
        (fun n => n.Contains (normIP ip)) := by
    apply any_filter_iff
    · intro r _ hpr
      simp only [inByteB, decide_eq_true_eq] at hpr
      simp only [decide_eq_true_eq]
      exact ⟨hpr.1, hpr.2.1⟩
    · intro r hr hpr hmr
      simp only [decide_eq_true_eq] at hpr
      obtain ⟨l4, m4, bi, bm⟩ := h4 r hr
      have hk := (contains_keys l4 m4 bi bm hbq hqq hmr).1 hpr.1
      simp only [inByteB, decide_eq_true_eq]
      exact ⟨hpr.1, hpr.2, hk.symm⟩
  have hword : (rs.filter (inWordB
        (256 * (normIP ip).getD 0 0 + (normIP ip).getD 1 0))).any
        (fun n => n.Contains (normIP ip)) =
      (rs.filter (fun r => decide (16 ≤ onesOf r))).any
        (fun n => n.Contains (normIP ip)) := by
    apply any_filter_iff
    · intro r _ hpr
      simp only [inWordB, decide_eq_true_eq] at hpr
      simp only [decide_eq_true_eq]
      exact hpr.1
    · intro r hr hpr hmr
      simp only [decide_eq_true_eq] at hpr
      obtain ⟨l4, m4, bi, bm⟩ := h4 r hr
      have hks := contains_keys l4 m4 bi bm hbq hqq hmr
      have hk0 := hks.1 (by omega)
      have hk1 := hks.2 hpr
      simp only [inWordB, decide_eq_true_eq]
      exact ⟨hpr, by rw [hk0, hk1]⟩
  rw [hbyte, hword]
  have hcoarse : (rs.filter inCoarseB) =
      rs.filter (fun r => decide (onesOf r < 8)) := rfl
  rw [hcoarse]
  cases (rs.filter (fun r => decide (onesOf r < 8))).any
      (fun n => n.Contains (normIP ip)) <;>
    cases (rs.filter (fun r => decide (8 ≤ onesOf r ∧ onesOf r < 16))).any
      (fun n => n.Contains (normIP ip)) <;>
    cases (rs.filter (fun r => decide (16 ≤ onesOf r))).any
      (fun n => n.Contains (normIP ip)) <;> rfl

lemma firstMatch_found : ∀ (fps : List FilterPair) (addrs : List (List Nat))
    (i : Nat) (fp : FilterPair),
    (∀ p ∈ fps, p.filter ≠ none) →
    fps[i]? = some fp →
    pairMatches fp addrs = true →
    (∀ j q, j < i → fps[j]? = some q → pairMatches q addrs = false) →
    firstMatch fps addrs = some (some fp) := by
  intro fps
  induction fps with
  | nil => intro addrs i fp _ hget; simp at hget
  | cons p ps ih =>
    intro addrs i fp hvalid hget hm hfirst
    cases i with
    | zero =>
      simp only [List.getElem?_cons_zero, Option.some.injEq] at hget
      subst hget
      cases hflt : p.filter with
      | none => exact absurd hflt (hvalid p (List.mem_cons_self _ _))
      | some flt =>
        simp only [pairMatches, hflt] at hm
        simp [firstMatch, hflt, hm]
    | succ i' =>
      have hp0 : pairMatches p addrs = false :=
        hfirst 0 p (Nat.succ_pos i') (by simp)
      cases hflt : p.filter with
      | none => exact absurd hflt (hvalid p (List.mem_cons_self _ _))
      | some flt =>
        have hany : addrs.any (fun a => flt.Contain a) = false := by
          simpa [pairMatches, hflt] using hp0
        rw [List.getElem?_cons_succ] at hget
        have hrec := ih addrs i' fp
          (fun q hq => hvalid q (List.mem_cons_of_mem _ hq))
          hget hm
          (fun j q hj hjq =>
            hfirst (j + 1) q (by omega) (by rw [List.getElem?_cons_succ]; exact hjq))
        simp [firstMatch, hflt, hany, hrec]

lemma firstMatch_nomatch : ∀ (fps : List FilterPair) (addrs : List (List Nat)),
    (∀ p ∈ fps, p.filter ≠ none) →
    (∀ p ∈ fps, pairMatches p addrs = false) →
    firstMatch fps addrs = none := by
  intro fps
  induction fps with
  | nil => intro addrs _ _; rfl
  | cons p ps ih =>
    intro addrs hvalid hnone
    cases hflt : p.filter with
    | none => exact absurd hflt (hvalid p (List.mem_cons_self _ _))
    | some flt =>
      have hany : addrs.any (fun a => flt.Contain a) = false := by
        simpa [pairMatches, hflt] using hnone p (List.mem_cons_self _ _)
      have hrec := ih addrs (fun q hq => hvalid q (List.mem_cons_of_mem _ hq))
        (fun q hq => hnone q (List.mem_cons_of_mem _ hq))
      simp [firstMatch, hflt, hany, hrec]

/-- C2: registration-order precedence with short-circuit.  With at least one
Filter Pair (all of them actually loaded) and a non-empty candidate set, the
first pair in registration order whose Range Index contains some candidate
receives the delegated dial with the original arguments and its result is
returned as-is; if no pair contains any candidate, the default dialer is
used. -/
theorem dial_first_registered_match_wins
    (fd : FilteredDialer) (network address host port : List Char)
    (addrs : List (List Nat)) (beh : DialBehavior)
    (h0 : fd.fps ≠ [])
    (h1 : SplitHostPort address = some (host, port))
    (h2 : Getaddrs fd.resolver host = some addrs)
    (_h3 : addrs ≠ [])
    (hvalid : ∀ p ∈ fd.fps, p.filter ≠ none) :
    (∀ (i : Nat) (fp : FilterPair), fd.fps[i]? = some fp →
      pairMatches fp addrs = true →
      (∀ (j : Nat) (q : FilterPair), j < i → fd.fps[j]? = some q →
        pairMatches q addrs = false) →
      fd.dialAction network address = .call fp.dialer network address ∧
      fd.runDial beh network address = delegate (beh fp.dialer network address)) ∧
    ((∀ p ∈ fd.fps, pairMatches p addrs = false) →
      fd.dialAction network address = .call fd.dialer network address ∧
      fd.runDial beh network address = delegate (beh fd.dialer network address)) := by
  have hlen : ¬ fd.fps.length = 0 := by
    intro h
    exact h0 (List.length_eq_zero.mp h)
  constructor
  · intro i fp hget hm hfirst
    have hfm := firstMatch_found fd.fps addrs i fp hvalid hget hm hfirst
    have hda : fd.dialAction network address = .call fp.dialer network address := by
      simp [FilteredDialer.dialAction, hlen, h1, h2, hfm]
    exact ⟨hda, by simp [FilteredDialer.runDial, hda]⟩
  · intro hnone
    have hfm := firstMatch_nomatch fd.fps addrs hvalid hnone
    have hda : fd.dialAction network address = .call fd.dialer network address := by
      simp [FilteredDialer.dialAction, hlen, h1, h2, hfm]
    exact ⟨hda, by simp [FilteredDialer.runDial, hda]⟩

/-- C5 (amended): a nil candidate slice is the hard `ErrDNSNotFound`
failure.  With filter pairs registered and a well-formed address, whenever
the hostname is not a literal IP and the resolver returns the nil slice,
`Dial` returns `ErrDNSNotFound` and invokes no dialer (neither a pair's nor
the default — the action is the error, not a `call`).  An empty but non-nil
slice instead falls through to the default dialer, see the
counterexample. -/
theorem dial_nil_candidates_dnsnotfound
    (fd : FilteredDialer) (network address host port : List Char)
    (beh : DialBehavior)
    (h0 : fd.fps ≠ [])
    (h1 : SplitHostPort address = some (host, port))
    (h2 : Getaddrs fd.resolver host = none) :
    fd.dialAction network address = .errDNSNotFound ∧
    fd.runDial beh network address = some (.error .dnsNotFound) := by
  have hlen : ¬ fd.fps.length = 0 := by
    intro h
    exact h0 (List.length_eq_zero.mp h)
  have hda : fd.dialAction network address = .errDNSNotFound := by
    simp [FilteredDialer.dialAction, hlen, h1, h2]
  exact ⟨hda, by simp [FilteredDialer.runDial, hda]⟩

/-- C10: pass-through fast path.  With zero registered Filter Pairs, `Dial`
is exactly the default dialer's result for the unchanged arguments, for
every network and address (even one that cannot be split into host and
port) and independently of the resolver (which is never consulted): the
conclusion holds for an arbitrary resolver inside `fd` and an arbitrary
address string. -/
theorem dial_passthrough_no_pairs
    (fd : FilteredDialer) (network address : List Char) (beh : DialBehavior)
    (h : fd.fps = []) :
    fd.dialAction network address = .call fd.dialer network address ∧
    fd.runDial beh network address = delegate (beh fd.dialer network address) := by
  have hda : fd.dialAction network address = .call fd.dialer network address := by
    simp [FilteredDialer.dialAction, h]
  exact ⟨hda, by simp [FilteredDialer.runDial, hda]⟩

/-- C1 counterexample: the index built from the single range line
`::ffff:10.20.0.0/112` (an IPv4-mapped IPv6 CIDR) answers `false` for the
address `10.20.1.2`, although a linear scan of the parsed range set answers
`true` — the range is word-bucketed under key 0 (its raw leading bytes)
while the query's word key is `0x0A14`. -/
theorem contain_partition_counterexample :
    parseStream c1CexStream =
      some [⟨[0, 0, 0, 0, 0, 0, 0, 0, 0, 0, 255, 255, 10, 20, 0, 0],
             [255, 255, 255, 255, 255, 255, 255, 255, 255, 255, 255, 255,
              255, 255, 0, 0]⟩] ∧
    ListConatins ((parseStream c1CexStream).getD []) [10, 20, 1, 2] = true ∧
    loadContain c1CexStream [10, 20, 1, 2] = some false := by
  refine ⟨by decide, by decide, by decide⟩

/-- C3: `LoadFilter` is not atomic on failure — evaluating the code at a
failing load (the file cannot be opened, so `ReadIPListFile` returns
`(nil, err)`): the error is returned AND a Filter Pair with a nil filter
pointer is still appended to the previously empty pair sequence. -/
theorem loadFilter_appends_pair_on_error :
    (fdPass.LoadFilter 7 none).map
      (fun r => (r.2, r.1.fps.map (fun p => (p.dialer, p.filter.isSome)))) =
      some (true, [(7, false)]) := by
  decide

/-- C4: the parser failure contract does not hold — evaluating `ParseLine`
at lines that are neither valid CIDR nor a valid two-token form: a line
with no second token panics (index out of range on `addrs[1]`), and a
two-token line with unparsable address tokens returns a garbage range with
nil base and mask and a nil error instead of a ParseError. -/
theorem parseline_fails_contract :
    ParseLine (String.toList "8.8.8.8") = .crash ∧
    ParseLine (String.toList "zzz qqq") = .ok ⟨[], []⟩ := by
  refine ⟨by decide, by decide⟩

/-- C5 counterexample: one Filter Pair registered, and the resolver returns
an empty but non-nil address slice without error.  The candidate set is
empty, yet `Dial` does not return `ErrDNSNotFound`: it falls through to the
default dialer (a dialer IS invoked), because the code checks `addrs == nil`
rather than emptiness. -/
theorem dial_empty_slice_uses_default :
    fdEmptyRes.resolver.lookupIP (String.toList "foo") = (some [], false) ∧
    Getaddrs fdEmptyRes.resolver (String.toList "foo") = some [] ∧
    fdEmptyRes.dialAction (String.toList "tcp") (String.toList "foo:80") =
      .call 0 (String.toList "tcp") (String.toList "foo:80") := by
  refine ⟨by decide, by decide, by decide⟩

/-- C7 counterexample: the accepted CIDR line `::ffff:10.20.0.0/112`
denotes an IPv4 network (its base address is IPv4-mapped, `To4` yields
`10.20.0.0`), yet the stored base address is the 16-byte form, not the
canonical 4-byte form — the CIDR branch of `ParseLine` performs no `To4`
normalization. -/
theorem mapped_cidr_base_not_4byte :
    parsedNet (String.toList "::ffff:10.20.0.0/112") =
      some ⟨[0, 0, 0, 0, 0, 0, 0, 0, 0, 0, 255, 255, 10, 20, 0, 0],
            [255, 255, 255, 255, 255, 255, 255, 255, 255, 255, 255, 255,
             255, 255, 0, 0]⟩ ∧
    To4 [0, 0, 0, 0, 0, 0, 0, 0, 0, 0, 255, 255, 10, 20, 0, 0] =
      [10, 20, 0, 0] ∧
    ([0, 0, 0, 0, 0, 0, 0, 0, 0, 0, 255, 255, 10, 20, 0, 0] : List Nat).length
      ≠ 4 := by
  refine ⟨by decide, by decide, by decide⟩

/-- C9: a trailing blank line crashes the loader — a stream of well-formed
lines that ends with a single final line terminator loads cleanly, but an
additional empty trailing line (a second consecutive terminator, i.e. an
empty last line before EOF) makes `ReadIPList` panic inside `ParseLine` on
the empty trimmed line, instead of terminating successfully. -/
theorem blank_trailing_line_crashes :
    (readIPList (String.toList "10.0.0.0/8\n")).isOk = true ∧
    (readIPList (String.toList "10.0.0.0/8\n\n")).isCrash = true := by
  refine ⟨by decide, by decide⟩

/-- C8: malformed lines never abort the load with an error — `ParseLine`
cannot return a non-nil error at all (each line either parses, possibly to
a garbage range, or panics), so the error-abort path of `ReadIPList` is
unreachable for parse failures.  Evaluating the loader at a stream whose
line is neither CIDR nor a valid two-token form: the load SUCCEEDS and the
index holds the garbage range with nil base and mask, instead of returning
the error with no index. -/
theorem parse_failure_never_aborts_load :
    (∀ line : List Char, (ParseLine line).isErr = false) ∧
    (readIPList (String.toList "zzz qqq\n")).getFilter.map
      (fun f => f.rest) = some [⟨[], []⟩] := by
  constructor
  · intro line
    unfold ParseLine
    cases hc : ParseCIDR line with
    | some p =>
      obtain ⟨pa, pb⟩ := p
      simp [PLResult.isErr]
    | none =>
      simp only []
      cases hg : (goSplit line).get? 1 with
      | none => simp [hg, PLResult.isErr]
      | some a1 => simp [hg, PLResult.isErr]
  · decide

lemma parseIPv4Fields_length : ∀ (fields : Nat) (first : Bool) (s : List Char)
    (bs : List Nat) (rem : List Char),
    parseIPv4Fields fields first s = some (bs, rem) → bs.length = fields := by
  intro fields
  induction fields with
  | zero =>
    intro first s bs rem h
    simp only [parseIPv4Fields, Option.some.injEq, Prod.mk.injEq] at h
    rw [← h.1]
    rfl
  | succ n ih =>
    intro first s bs rem h
    simp only [parseIPv4Fields] at h
    split at h
    · exact Option.noConfusion h
    · split at h
      · exact Option.noConfusion h
      · split at h
        · exact Option.noConfusion h
        · split at h
          · exact Option.noConfusion h
          · next bs' rem' hrec =>
            simp only [Option.some.injEq, Prod.mk.injEq] at h
            rw [← h.1, List.length_cons, ih _ _ bs' rem' hrec]

lemma parseIPv4_shape {s : List Char} (h : parseIPv4 s ≠ []) :
    ∃ bs : List Nat, parseIPv4 s = v4InV6 ++ bs ∧ bs.length = 4 := by
  unfold parseIPv4 at h ⊢
  cases hf : parseIPv4Fields 4 true s with
  | none => rw [hf] at h; simp at h
  | some p =>
    obtain ⟨bs, rem⟩ := p
    cases rem with
    | nil => exact ⟨bs, rfl, parseIPv4Fields_length 4 true s bs [] hf⟩
    | cons c cs => rw [hf] at h; simp at h

lemma cidrMaskAux_length : ∀ l n, (cidrMaskAux l n).length = l := by
  intro l
  induction l with
  | zero => intro n; rfl
  | succ m ih =>
    intro n
    simp only [cidrMaskAux]
    split <;> simp [ih]

lemma ipMask_v4 {bs m : List Nat} (hbs : bs.length = 4) (hm : m.length = 4) :
    (ipMask (v4InV6 ++ bs) m).length = 4 := by
  obtain ⟨b0, b1, b2, b3, rfl⟩ := list_len4 hbs
  obtain ⟨k0, k1, k2, k3, rfl⟩ := list_len4 hm
  simp [ipMask, v4InV6, List.zip]

/-- C7 (amended): IPv4 normalization before storage holds for the two-token
form and for dotted-decimal CIDR lines, but not for CIDR lines whose
address is written in IPv4-mapped IPv6 form (see the counterexample).
Part one: a CIDR line whose address part parses as dotted-decimal IPv4
stores a 4-byte base.  Part two: a two-token line whose first token parses
to an address normalizable by `To4` stores exactly that canonical 4-byte
form. -/
theorem parseline_ipv4_normalized :
    (∀ (s : List Char) (ip : List Nat) (net : IPNet),
      ParseCIDR s = some (ip, net) →
      parseIPv4 (s.take ((goIndex s '/').getD 0)) ≠ [] →
      net.ip.length = 4) ∧
    (∀ (line : List Char) (n : IPNet),
      ParseCIDR line = none →
      ParseLine line = .ok n →
      To4 (ParseIP ((goSplit line).getD 0 [])) ≠ [] →
      n.ip = To4 (ParseIP ((goSplit line).getD 0 [])) ∧ n.ip.length = 4) := by
  constructor
  · intro s ip net hc hp4
    unfold ParseCIDR at hc
    cases hidx : goIndex s '/' with
    | none => rw [hidx] at hc; exact Option.noConfusion hc
    | some i =>
      rw [hidx] at hc
      rw [hidx] at hp4
      simp only [Option.getD_some] at hp4
      simp only at hc
      rw [if_pos hp4] at hc
      simp only at hc
      split at hc
      · exact Option.noConfusion hc
      · next hguard =>
        simp only [Option.some.injEq, Prod.mk.injEq] at hc
        obtain ⟨-, hnet⟩ := hc
        subst hnet
        simp only
        obtain ⟨bs, hshape, hbl⟩ := parseIPv4_shape hp4
        have hle : (dtoi (s.drop (i + 1))).1 ≤ 32 := by
          by_contra hgt
          exact hguard (by right; right; right; omega)
        have hcm : CIDRMask (dtoi (s.drop (i + 1))).1 (8 * 4) =
            cidrMaskAux 4 (dtoi (s.drop (i + 1))).1 := by
          unfold CIDRMask
          rw [if_pos ⟨Or.inl rfl, by omega⟩]
        rw [hshape, hcm]
        exact ipMask_v4 hbl (cidrMaskAux_length 4 _)
  · intro line n hcnone hok hTo4
    unfold ParseLine at hok
    rw [hcnone] at hok
    simp only at hok
    cases hg : (goSplit line).get? 1 with
    | none => rw [hg] at hok; exact PLResult.noConfusion hok
    | some a1 =>
      rw [hg] at hok
      simp only at hok
      have hn : n = ⟨if To4 (ParseIP ((goSplit line).getD 0 [])) ≠ [] then
            To4 (ParseIP ((goSplit line).getD 0 []))
          else ParseIP ((goSplit line).getD 0 []),
          if To4 (ParseIP a1) ≠ [] then To4 (ParseIP a1) else ParseIP a1⟩ := by
        injection hok with h'
        exact h'.symm
      subst hn
      simp only
      rw [if_pos hTo4]
      exact ⟨rfl, To4_length hTo4⟩

/-- C6: classification invariant.  Every range of a successfully loaded
stream ends up in exactly the bucket selected by its prefix length `p` (the
`ones` of `Mask.Size()`): each bucket of the built index is precisely the
subsequence of parsed ranges of its class — the coarse bucket holds the
ranges with `p < 8`, the byte bucket of key `k` the ranges with
`8 ≤ p < 16` whose first base byte is `k`, and the word bucket of key `k`
the ranges with `16 ≤ p` whose big-endian leading two bytes form `k`.  The
three class predicates are mutually exclusive, so each range lies in
exactly one bucket. -/
theorem classification_by_mask_length
    (s : List Char) (f : IPFilter) (rs : List IPNet)
    (hf : readIPList s = .ok f) (hp : parseStream s = some rs) :
    f.rest = rs.filter inCoarseB ∧
    (∀ k, f.idx1 k = rs.filter (inByteB k)) ∧
    (∀ k, f.idx2 k = rs.filter (inWordB k)) := by
  obtain ⟨rs', hp', hfold⟩ :=
    readIPListLoop_decomp (s.length + 1) s emptyFilter f (by omega) hf
  have hrs : rs = rs' := by
    rw [parseStream] at hp
    rw [hp'] at hp
    injection hp with h
    exact h.symm
  subst hrs
  obtain ⟨h1, h2, h3⟩ := foldInsert_buckets hfold
  exact ⟨by simpa [emptyFilter] using h1,
    fun k => by simpa [emptyFilter] using h2 k,
    fun k => by simpa [emptyFilter] using h3 k⟩

/-- Witness for C1 (amended), at a two-line dotted-decimal stream and the
address `10.9.8.7`. -/
theorem contain_agrees_with_linear_scan_witness :
    readIPList c1Stream = .ok c1Filter ∧
    parseStream c1Stream = some c1Ranges ∧
    (∀ r ∈ c1Ranges, r.ip.length = 4 ∧ r.mask.length = 4 ∧
      (∀ b ∈ r.ip, b < 256) ∧ (∀ b ∈ r.mask, b < 256)) ∧
    (([10, 9, 8, 7] : List Nat).length = 4 ∨
      ([10, 9, 8, 7] : List Nat).length = 16) ∧
    (∀ b ∈ ([10, 9, 8, 7] : List Nat), b < 256) ∧
    c1Filter.Contain [10, 9, 8, 7] = ListConatins c1Ranges [10, 9, 8, 7] :=
  ⟨rfl, rfl, by decide, by decide, by decide,
   contain_agrees_with_linear_scan c1Stream c1Filter c1Ranges rfl rfl (by decide)
     [10, 9, 8, 7] (by decide) (by decide)⟩

/-- Witness for C2, at a dialer with two pairs both matching the literal
destination `10.0.0.5:80`: the first registered pair (dialer 5) wins. -/
theorem dial_first_registered_match_wins_witness :
    fdTwo.fps ≠ [] ∧
    SplitHostPort (String.toList "10.0.0.5:80") =
      some (String.toList "10.0.0.5", String.toList "80") ∧
    Getaddrs fdTwo.resolver (String.toList "10.0.0.5") =
      some [[0, 0, 0, 0, 0, 0, 0, 0, 0, 0, 255, 255, 10, 0, 0, 5]] ∧
    pairMatches ⟨5, some flt10⟩
      [[0, 0, 0, 0, 0, 0, 0, 0, 0, 0, 255, 255, 10, 0, 0, 5]] = true ∧
    fdTwo.dialAction (String.toList "tcp") (String.toList "10.0.0.5:80") =
      .call 5 (String.toList "tcp") (String.toList "10.0.0.5:80") ∧
    fdTwo.runDial behConn (String.toList "tcp") (String.toList "10.0.0.5:80") =
      some (.ok 5) := by
  have hvalid : ∀ p ∈ fdTwo.fps, p.filter ≠ none := by
    intro p hp
    simp only [fdTwo, List.mem_cons, List.mem_singleton] at hp
    rcases hp with rfl | hp
    · simp
    · rcases hp with rfl | hp
      · simp
      · simp at hp
  have happ := (dial_first_registered_match_wins fdTwo (String.toList "tcp")
    (String.toList "10.0.0.5:80") (String.toList "10.0.0.5") (String.toList "80")
    [[0, 0, 0, 0, 0, 0, 0, 0, 0, 0, 255, 255, 10, 0, 0, 5]] behConn
    (by simp [fdTwo]) rfl rfl (by decide) hvalid).1 0 ⟨5, some flt10⟩ rfl
    (by decide) (fun j q hj _ => absurd hj (by omega))
  exact ⟨by simp [fdTwo], rfl, rfl, by decide, happ.1, happ.2⟩

/-- Witness for C5 (amended), at a dialer whose resolver returns the nil
slice for the non-literal hostname `foo`. -/
theorem dial_nil_candidates_dnsnotfound_witness :
    fdNilRes.fps ≠ [] ∧
    SplitHostPort (String.toList "foo:80") =
      some (String.toList "foo", String.toList "80") ∧
    Getaddrs fdNilRes.resolver (String.toList "foo") = none ∧
    fdNilRes.dialAction (String.toList "tcp") (String.toList "foo:80") =
      .errDNSNotFound ∧
    fdNilRes.runDial behConn (String.toList "tcp") (String.toList "foo:80") =
      some (.error .dnsNotFound) := by
  have happ := dial_nil_candidates_dnsnotfound fdNilRes (String.toList "tcp")
    (String.toList "foo:80") (String.toList "foo") (String.toList "80") behConn
    (by simp [fdNilRes]) rfl rfl
  exact ⟨by simp [fdNilRes], rfl, rfl, happ.1, happ.2⟩

/-- Witness for C6, at a stream with one range per class: `1.0.0.0/4`
(coarse), `2.128.0.0/9` (byte bucket 2), `3.4.5.0/24` (word bucket 772). -/
theorem classification_by_mask_length_witness :
    readIPList c6Stream = .ok c6Filter ∧
    parseStream c6Stream = some c6Ranges ∧
    c6Filter.rest = c6Ranges.filter inCoarseB ∧
    c6Filter.idx1 2 = c6Ranges.filter (inByteB 2) ∧
    c6Filter.idx2 772 = c6Ranges.filter (inWordB 772) ∧
    c6Filter.rest = [⟨[0, 0, 0, 0], [240, 0, 0, 0]⟩] ∧
    c6Filter.idx1 2 = [⟨[2, 128, 0, 0], [255, 128, 0, 0]⟩] ∧
    c6Filter.idx2 772 = [⟨[3, 4, 5, 0], [255, 255, 255, 0]⟩] := by
  have happ := classification_by_mask_length c6Stream c6Filter c6Ranges rfl rfl
  exact ⟨rfl, rfl, happ.1, happ.2.1 2, happ.2.2 772, by decide, by decide,
    by decide⟩

/-- Witness for C7 (amended), at the dotted CIDR line `10.0.0.0/8` and the
two-token line `10.20.30.40 255.255.0.0`. -/
theorem parseline_ipv4_normalized_witness :
    ((ParseCIDR (String.toList "10.0.0.0/8")).getD ([], ⟨[], []⟩)).2.ip.length
      = 4 ∧
    ((parsedNet (String.toList "10.20.30.40 255.255.0.0")).getD
      ⟨[], []⟩).ip.length = 4 :=
  ⟨parseline_ipv4_normalized.1 (String.toList "10.0.0.0/8") _ _ rfl (by decide),
   (parseline_ipv4_normalized.2 (String.toList "10.20.30.40 255.255.0.0") _
     rfl rfl (by decide)).2⟩

/-- Witness for C8: a well-formed line also yields no error return. -/
theorem parse_failure_never_aborts_load_witness :
    (ParseLine (String.toList "10.0.0.0/8")).isErr = false :=
  parse_failure_never_aborts_load.1 _

/-- Witness for C10, at an address that cannot even be split into host and
port: the pass-through still delegates it verbatim. -/
theorem dial_passthrough_no_pairs_witness :
    fdPass.fps = [] ∧
    fdPass.dialAction (String.toList "tcp") (String.toList "][oops") =
      .call 0 (String.toList "tcp") (String.toList "][oops") ∧
    fdPass.runDial behConn (String.toList "tcp") (String.toList "][oops") =
      some (.ok 0) :=
  ⟨rfl,
   (dial_passthrough_no_pairs fdPass (String.toList "tcp")
     (String.toList "][oops") behConn rfl).1,
   (dial_passthrough_no_pairs fdPass (String.toList "tcp")
     (String.toList "][oops") behConn rfl).2⟩
